import Mathlib

set_option maxRecDepth 1000000

/-!
Verification development for the LifeQuest AI XP/level engine and step/goal
state machine (`src/backend/main.py`, `src/backend/models.py`).

The Python code computes with IEEE binary64 floats in three places:

* `_build_level_requirements`: `requirements[-1] * 1.10`, `round(needed / 10.0)`;
* `compute_level_from_xp`: `current_level_xp / next_level_xp`;
* `finish_goal`: `round((total_goal_xp * 0.05) / 10) * 10`.

Every float value occurring there is normal (magnitudes between 0.05 and a
few tens of thousands), so binary64 arithmetic is exactly "round the exact
rational result to 53 significant bits, ties to even", and Python's `round`
on a float is round-half-to-even of the exact value the float denotes.
We represent each float by the exact rational it denotes, as an explicit
numerator/denominator pair `Fr` (denominator kept positive by construction,
fractions deliberately not reduced so that everything evaluates by kernel
reduction), and we implement 53-bit round-to-nearest-ties-to-even on `Fr`.
-/

/-- An exact (unreduced) fraction: the value is `num / den`, and every
constructor in this file keeps `den` positive. -/
structure Fr where
  num : ℤ
  den : ℤ
  deriving DecidableEq, Repr

/-- The rational value a fraction denotes. -/
def Fr.toRat (x : Fr) : ℚ := (x.num : ℚ) / (x.den : ℚ)

/-- Round-half-to-even of `n / d` (for `d > 0`) to an integer; this is what
Python's `round` does on the exact value of a float. -/
def rneFrac (n d : ℤ) : ℤ :=
  let f := Int.fdiv n d
  let r := n - f * d
  if 2 * r < d then f
  else if d < 2 * r then f + 1
  else if f % 2 = 0 then f else f + 1

/-- Round-half-to-even of a fraction to an integer. -/
def rneF (x : Fr) : ℤ := rneFrac x.num x.den

/-- Fuel-driven base-2 logarithm on `ℕ` (enough fuel for any value in this
development); `log2Fuel fuel n` is `⌊log₂ n⌋` for `1 ≤ n < 2 ^ fuel`. -/
def log2Fuel : ℕ → ℕ → ℕ
  | 0, _ => 0
  | fuel + 1, n => if 2 ≤ n then log2Fuel fuel (n / 2) + 1 else 0

/-- `⌊log₂ (n / d)⌋` for positive `n`, `d`: the unique `e` with
`2 ^ e ≤ n / d < 2 ^ (e + 1)`. -/
def floorLog2Frac (n d : ℤ) : ℤ :=
  if d ≤ n then (log2Fuel 1100 (Int.fdiv n d).toNat : ℤ)
  else
    let k := log2Fuel 1100 (Int.fdiv d n).toNat
    if d ≤ n * ((2 ^ k : ℕ) : ℤ) then -(k : ℤ) else -(k : ℤ) - 1

/-- Round a fraction (denominator positive) to the nearest binary64 value:
53 significant bits, ties to even.  The exponent is left unbounded, which
agrees with IEEE in the normal range this program uses.  Nonpositive inputs
only occur here as exact zeros. -/
def roundFloatF (x : Fr) : Fr :=
  if x.num ≤ 0 then ⟨0, 1⟩
  else
    let e := floorLog2Frac x.num x.den
    let s : ℤ :=
      if 0 ≤ 52 - e then rneFrac (x.num * ((2 ^ (52 - e).toNat : ℕ) : ℤ)) x.den
      else rneFrac x.num (x.den * ((2 ^ (e - 52).toNat : ℕ) : ℤ))
    if 0 ≤ e - 52 then ⟨s * ((2 ^ (e - 52).toNat : ℕ) : ℤ), 1⟩
    else ⟨s, ((2 ^ (52 - e).toNat : ℕ) : ℤ)⟩

/-- The binary64 value of the Python literal `1.10`. -/
def fl11 : Fr := roundFloatF ⟨11, 10⟩

/-- The binary64 value of the Python literal `0.05`. -/
def fl005 : Fr := roundFloatF ⟨1, 20⟩

/-- Binary64 multiplication: exact product, correctly rounded. -/
def pyMulFloat (a b : Fr) : Fr := roundFloatF ⟨a.num * b.num, a.den * b.den⟩

/-- Binary64 division (positive divisor): exact quotient, correctly
rounded. -/
def pyDivFloat (a b : Fr) : Fr := roundFloatF ⟨a.num * b.den, a.den * b.num⟩

/-- `MAX_LEVEL` from `main.py`. -/
def MAX_LEVEL : ℤ := 60

/-- One iteration of the loop body of `_build_level_requirements` for
`lvl > 1`: `needed = requirements[-1] * 1.10` (binary64),
`rounded = int(round(needed / 10.0) * 10)`, floored at 10. -/
def nextRequirement (prev : ℤ) : ℤ :=
  let needed := pyMulFloat ⟨prev, 1⟩ fl11
  let rounded := rneF (pyDivFloat needed ⟨10, 1⟩) * 10
  if rounded < 10 then 10 else rounded

/-- The `lvl == 1` iteration of `_build_level_requirements`:
`needed = 100.0`, then the same rounding and flooring. -/
def firstRequirement : ℤ :=
  let rounded := rneF (pyDivFloat ⟨100, 1⟩ ⟨10, 1⟩) * 10
  if rounded < 10 then 10 else rounded

/-- The remaining iterations of the build loop, carrying
`requirements[-1]`. -/
def buildFrom : ℕ → ℤ → List ℤ
  | 0, _ => []
  | Nat.succ n, prev =>
    let r := nextRequirement prev
    r :: buildFrom n r

/-- `LEVEL_XP_REQUIREMENTS = _build_level_requirements()`: the loop runs
`lvl = 1, …, 59` (`range(1, MAX_LEVEL)`). -/
def LEVEL_XP_REQUIREMENTS : List ℤ :=
  firstRequirement :: buildFrom 58 firstRequirement

/-- `XP_TO_REACH_MAX = sum(LEVEL_XP_REQUIREMENTS)`. -/
def XP_TO_REACH_MAX : ℤ := LEVEL_XP_REQUIREMENTS.sum

/-- The `for idx, needed in enumerate(...)` loop of `compute_level_from_xp`:
consume requirements in order while `remaining >= needed and level < MAX_LEVEL`,
returning `(level, remaining)` at the first failure (`break`) or at list
end. -/
def walkLoop : List ℤ → ℤ → ℤ → ℤ × ℤ
  | [], level, remaining => (level, remaining)
  | needed :: rest, level, remaining =>
    if needed ≤ remaining ∧ level < MAX_LEVEL then
      walkLoop rest (level + 1) (remaining - needed)
    else
      (level, remaining)

/-- `compute_level_from_xp(total_xp)` from `main.py`.  The returned
`progress_to_next` is the Python float `current_level_xp / next_level_xp`
(binary64 division), given as the exact rational it denotes. -/
def compute_level_from_xp (total_xp : ℤ) : ℤ × ℤ × ℤ × ℚ :=
  let t := if total_xp < 0 then 0 else total_xp
  if XP_TO_REACH_MAX ≤ t then (MAX_LEVEL, 0, 0, 1)
  else
    let lr := walkLoop LEVEL_XP_REQUIREMENTS 1 t
    if MAX_LEVEL ≤ lr.1 then (MAX_LEVEL, 0, 0, 1)
    else
      let current := lr.2
      let next := LEVEL_XP_REQUIREMENTS.getD (lr.1 - 1).toNat 0
      (lr.1, current, next,
        if next = 0 then 0 else (pyDivFloat ⟨current, 1⟩ ⟨next, 1⟩).toRat)

/-- `b` is a nearest multiple of 10 to `1.10 * a` (exact arithmetic):
`b ≡ 0 (mod 10)` and `|b - 11 a / 10| ≤ 1/2 · 10`, i.e. `|10 b - 11 a| ≤ 50`.
Checked along consecutive entries of a list. -/
def chainNearestTen : List ℤ → Bool
  | [] => true
  | [_] => true
  | a :: b :: r =>
    (b % 10 == 0 && (10 * b - 11 * a ≤ 50 && 11 * a - 10 * b ≤ 50)) &&
      chainNearestTen (b :: r)

/-!
## Data model (`src/backend/models.py`)

Only the columns the specified engine reads or writes are modelled.
Timestamps are abstract ticks (`ℕ`); within one request every
`datetime.now` / `datetime.utcnow` call is the same tick `now`.
`Step.difficulty` is the stored enum value as a string: the code compares
it against the three known tags and falls through to a default branch for
anything else.  `XPLog.meta` is the JSON payload; only the `goal_id` and
`step_id` keys are ever queried (`meta["step_id"].as_string()` is SQL NULL,
hence unequal to any id, when the key is absent — modelled by `Option`).
-/

/-- The queried part of the `XPLog.meta` JSON payload. -/
structure XPMeta where
  goal_id : Option String
  step_id : Option String
  deriving DecidableEq, Repr

/-- A row of `goals` (fields used by the engine). -/
structure Goal where
  id : String
  user_id : String
  completed_at : Option ℕ
  completion_summary : Option String
  deriving DecidableEq, Repr

/-- A row of `steps` (fields used by the engine). -/
structure Step where
  id : String
  goal_id : String
  position : ℤ
  difficulty : String
  deriving DecidableEq, Repr

/-- A row of `user_steps` (fields used by the engine). -/
structure UserStep where
  user_id : String
  step_id : String
  started_at : Option ℕ
  completed_at : Option ℕ
  xp_awarded : ℤ
  deriving DecidableEq, Repr

/-- A row of `xp_log`. -/
structure XPLog where
  user_id : String
  amount : ℤ
  reason : String
  meta : XPMeta
  created_at : ℕ
  deriving DecidableEq, Repr

/-- A row of `reflections` (fields used by the engine). -/
structure Reflection where
  user_id : String
  step_id : String
  text : String
  created_at : ℕ
  deriving DecidableEq, Repr

/-- The store: one list per table.  `.first()` on a query is the first list
element matching the filter. -/
structure DB where
  goals : List Goal
  steps : List Step
  userSteps : List UserStep
  xpLogs : List XPLog
  reflections : List Reflection
  deriving DecidableEq, Repr

/-- The error taxonomy of the engine's HTTP failures: 404 "not found" →
`notFound`; 400 "You need to complete earlier steps..." →
`sequenceViolation`; 400 "Goal cannot be finished until all steps are
completed" → `incompletePrerequisite`.  Every `raise` happens before any
mutation, and an uncommitted session is discarded, so an error leaves the
store unchanged; the operations below return the unchanged `DB` alongside
the error. -/
inductive ApiError where
  | notFound
  | sequenceViolation
  | incompletePrerequisite
  deriving DecidableEq, Repr

/-- Replace the first element satisfying `p` by its image under `f`
(SQLAlchemy mutates the single object returned by `.first()`). -/
def updFirst {α : Type} (p : α → Bool) (f : α → α) : List α → List α
  | [] => []
  | x :: r => if p x then f x :: r else x :: updFirst p f r

/-- `db.query(Goal).filter(id == goal_id, user_id == current_user.id).first()`. -/
def findGoal (db : DB) (gid uid : String) : Option Goal :=
  db.goals.find? (fun g => decide (g.id = gid ∧ g.user_id = uid))

/-- `db.query(Step).filter(id == step_id, goal_id == goal.id).first()`. -/
def findStep (db : DB) (sid gid : String) : Option Step :=
  db.steps.find? (fun s => decide (s.id = sid ∧ s.goal_id = gid))

/-- First element of maximal `position` (`order_by(position.desc()).first()`). -/
def maxByPos : List Step → Option Step
  | [] => none
  | st :: rest =>
    match maxByPos rest with
    | none => some st
    | some b => if st.position < b.position then some b else some st

/-- The `prev_step` query: steps of the goal with smaller position, ordered
by position descending, first row. -/
def prevStep (db : DB) (gid : String) (pos : ℤ) : Option Step :=
  maxByPos (db.steps.filter (fun s => decide (s.goal_id = gid ∧ s.position < pos)))

/-- `db.query(UserStep).filter(user_id ==, step_id ==).first()`. -/
def findUserStep (db : DB) (uid sid : String) : Option UserStep :=
  db.userSteps.find? (fun us => decide (us.user_id = uid ∧ us.step_id = sid))

/-- Key predicate of a `user_steps` row. -/
def usKey (uid sid : String) (us : UserStep) : Bool :=
  decide (us.user_id = uid ∧ us.step_id = sid)

/-- The common `SequenceViolation` guard of `start_step` / `complete_step`:
the predecessor step (if any) must have a completed progress row for this
user.  Returns `none` when the guard passes, the error otherwise. -/
def seqGuard (db : DB) (uid gid : String) (pos : ℤ) : Option ApiError :=
  match prevStep db gid pos with
  | none => none
  | some p =>
    match findUserStep db uid p.id with
    | none => some .sequenceViolation
    | some pus => if pus.completed_at = none then some .sequenceViolation else none

/-- Result payload of `start_step` (the JSON fields the handler returns,
minus the constant `"status": "in_progress"`). -/
structure StartResult where
  goal_id : String
  step_id : String
  started_at : Option ℕ
  completed_at : Option ℕ
  deriving DecidableEq, Repr

/-- Mutation phase of `start_step`, after all guards passed: create the
progress row with `started_at = now`, or set `started_at` if unset,
else no-op. -/
def startStepBody (db : DB) (uid : String) (goal : Goal) (step : Step) (now : ℕ) :
    DB × Except ApiError StartResult :=
  match findUserStep db uid step.id with
  | none =>
    let us : UserStep := ⟨uid, step.id, some now, none, 0⟩
    ({ db with userSteps := db.userSteps ++ [us] },
     .ok ⟨goal.id, step.id, some now, none⟩)
  | some us =>
    if us.started_at = none then
      ({ db with userSteps :=
          updFirst (usKey uid step.id) (fun r => { r with started_at := some now }) db.userSteps },
       .ok ⟨goal.id, step.id, some now, us.completed_at⟩)
    else
      (db, .ok ⟨goal.id, step.id, us.started_at, us.completed_at⟩)

/-- `start_step` (`POST /goals/{goal_id}/steps/{step_id}/start`). -/
def start_step (db : DB) (uid gid sid : String) (now : ℕ) :
    DB × Except ApiError StartResult :=
  match findGoal db gid uid with
  | none => (db, .error .notFound)
  | some goal =>
    match findStep db sid goal.id with
    | none => (db, .error .notFound)
    | some step =>
      match seqGuard db uid goal.id step.position with
      | some e => (db, .error e)
      | none => startStepBody db uid goal step now

/-- XP by difficulty in `complete_step`: the `if/elif/elif/else` chain with
the defensive `else: base_xp = 10` branch. -/
def baseXP (difficulty : String) : ℤ :=
  if difficulty = "easy" then 10
  else if difficulty = "medium" then 20
  else if difficulty = "hard" then 40
  else 10

/-- The ledger entry `complete_step` appends (reason `step_complete`,
meta carrying `goal_id`, `step_id`). -/
def scEntry (uid gid sid : String) (amount : ℤ) (now : ℕ) : XPLog :=
  ⟨uid, amount, "step_complete", ⟨some gid, some sid⟩, now⟩

/-- The dedup query of `complete_step`: an existing ledger entry for this
user with reason `step_complete` and `meta["step_id"] == step.id`. -/
def findCompletionXP (db : DB) (uid sid : String) : Option XPLog :=
  db.xpLogs.find? (fun e =>
    decide (e.user_id = uid ∧ e.reason = "step_complete" ∧ e.meta.step_id = some sid))

/-- Result payload of `complete_step`. -/
structure CompleteResult where
  xp_awarded : ℤ
  step_id : String
  goal_id : String
  deriving DecidableEq, Repr

/-- Mutation phase of `complete_step` after all guards passed: get/create
the progress row, set `completed_at` if unset, then award base XP unless a
`step_complete` ledger entry for this (user, step) already exists, also
adding the amount to the row's `xp_awarded`. -/
def completeStepBody (db : DB) (uid : String) (goal : Goal) (step : Step) (now : ℕ) :
    DB × Except ApiError CompleteResult :=
  match findUserStep db uid step.id with
  | none =>
    let fresh : UserStep := ⟨uid, step.id, some now, some now, 0⟩
    match findCompletionXP db uid step.id with
    | some _ =>
      ({ db with userSteps := db.userSteps ++ [fresh] }, .ok ⟨0, step.id, goal.id⟩)
    | none =>
      let b := baseXP step.difficulty
      ({ db with
          userSteps := db.userSteps ++ [{ fresh with xp_awarded := fresh.xp_awarded + b }],
          xpLogs := db.xpLogs ++ [scEntry uid goal.id step.id b now] },
       .ok ⟨b, step.id, goal.id⟩)
  | some us =>
    let us1 := if us.completed_at = none then { us with completed_at := some now } else us
    match findCompletionXP db uid step.id with
    | some _ =>
      ({ db with userSteps := updFirst (usKey uid step.id) (fun _ => us1) db.userSteps },
       .ok ⟨0, step.id, goal.id⟩)
    | none =>
      let b := baseXP step.difficulty
      ({ db with
          userSteps :=
            updFirst (usKey uid step.id) (fun _ => { us1 with xp_awarded := us1.xp_awarded + b })
              db.userSteps,
          xpLogs := db.xpLogs ++ [scEntry uid goal.id step.id b now] },
       .ok ⟨b, step.id, goal.id⟩)

/-- `complete_step` (`POST /goals/{goal_id}/steps/{step_id}/complete`). -/
def complete_step (db : DB) (uid gid sid : String) (now : ℕ) :
    DB × Except ApiError CompleteResult :=
  match findGoal db gid uid with
  | none => (db, .error .notFound)
  | some goal =>
    match findStep db sid goal.id with
    | none => (db, .error .notFound)
    | some step =>
      match seqGuard db uid goal.id step.position with
      | some e => (db, .error e)
      | none => completeStepBody db uid goal step now

/-- `db.query(Reflection).filter(user_id ==, step_id == step_id).first()`. -/
def findReflection (db : DB) (uid sid : String) : Option Reflection :=
  db.reflections.find? (fun r => decide (r.user_id = uid ∧ r.step_id = sid))

/-- Key predicate of a `reflections` row. -/
def reflKey (uid sid : String) (r : Reflection) : Bool :=
  decide (r.user_id = uid ∧ r.step_id = sid)

/-- The ledger entry the reflection handler appends on first creation:
flat 5 XP, reason `reflection`, meta carrying the path `goal_id` and
`step_id`. -/
def reflectionEntry (uid gid sid : String) (now : ℕ) : XPLog :=
  ⟨uid, 5, "reflection", ⟨some gid, some sid⟩, now⟩

/-- `create_or_update_reflection`
(`POST /goals/{goal_id}/steps/{step_id}/reflect`): upsert the row keyed by
(user, step); award 5 XP only when the row is newly created. -/
def create_or_update_reflection (db : DB) (uid gid sid text : String) (now : ℕ) :
    DB × Except ApiError Reflection :=
  match findGoal db gid uid with
  | none => (db, .error .notFound)
  | some goal =>
    match findStep db sid goal.id with
    | none => (db, .error .notFound)
    | some _ =>
      match findReflection db uid sid with
      | some r =>
        let r' := { r with text := text }
        ({ db with reflections := updFirst (reflKey uid sid) (fun _ => r') db.reflections },
         .ok r')
      | none =>
        let r : Reflection := ⟨uid, sid, text, now⟩
        ({ db with
            reflections := db.reflections ++ [r],
            xpLogs := db.xpLogs ++ [reflectionEntry uid gid sid now] },
         .ok r)

/-- Key predicate of a `goals` row as queried by the handlers. -/
def goalKey (gid uid : String) (g : Goal) : Bool :=
  decide (g.id = gid ∧ g.user_id = uid)

/-- The steps belonging to a goal
(`db.query(Step).filter(goal_id == goal.id)`). -/
def goalSteps (db : DB) (gid : String) : List Step :=
  db.steps.filter (fun s => decide (s.goal_id = gid))

/-- The `completed_steps` count of `finish_goal`:
`query(UserStep).join(Step, Step.id == UserStep.step_id)
 .filter(Step.goal_id == goal.id, user_id ==, completed_at != NULL).count()`
— the number of matching (progress row, step row) pairs of the SQL join. -/
def completedJoinCount (db : DB) (uid gid : String) : ℕ :=
  ((goalSteps db gid).flatMap (fun st =>
      db.userSteps.filter (fun us =>
        decide (us.user_id = uid ∧ us.step_id = st.id ∧ us.completed_at ≠ none)))).length

/-- The `total_goal_xp` query of `finish_goal`: sum of this user's ledger
amounts whose meta is tagged with this goal's id — any reason. -/
def totalGoalXP (db : DB) (uid gid : String) : ℤ :=
  ((db.xpLogs.filter (fun e =>
      decide (e.user_id = uid ∧ e.meta.goal_id = some gid))).map (fun e => e.amount)).sum

/-- `bonus = round((total_goal_xp * 0.05) / 10) * 10` — binary64 arithmetic
and Python `round` (half-to-even on the exact float value). -/
def bonusFromTotal (total : ℤ) : ℤ :=
  rneF (pyDivFloat (pyMulFloat ⟨total, 1⟩ fl005) ⟨10, 1⟩) * 10

/-- The ledger entry `finish_goal` appends when the bonus is positive. -/
def goalCompleteEntry (uid gid : String) (amount : ℤ) (now : ℕ) : XPLog :=
  ⟨uid, amount, "goal_complete", ⟨some gid, none⟩, now⟩

/-- Result payload of `finish_goal`. -/
structure FinishResult where
  goal_id : String
  bonus_xp : ℤ
  completed_at : ℕ
  summary_text : String
  deriving DecidableEq, Repr

/-- `finish_goal` (`POST /goals/{goal_id}/finish`).  The AI completion
summary (external call with deterministic fallback) is passed in as the
opaque `summary` argument; the handler stores it and sets `completed_at`. -/
def finish_goal (db : DB) (uid gid : String) (now : ℕ) (summary : String) :
    DB × Except ApiError FinishResult :=
  match findGoal db gid uid with
  | none => (db, .error .notFound)
  | some goal =>
    let total_steps := (goalSteps db goal.id).length
    let completed_steps := completedJoinCount db uid goal.id
    if 0 < total_steps ∧ completed_steps < total_steps then
      (db, .error .incompletePrerequisite)
    else
      let total := totalGoalXP db uid goal.id
      let bonus := bonusFromTotal total
      let logs' :=
        if 0 < bonus then db.xpLogs ++ [goalCompleteEntry uid goal.id bonus now]
        else db.xpLogs
      ({ db with
          xpLogs := logs',
          goals := updFirst (goalKey gid uid)
            (fun g => { g with completed_at := some now, completion_summary := some summary })
            db.goals },
       .ok ⟨goal.id, bonus, now, summary⟩)

/-!
## Measurement functions and auxiliary definitions for the claims
-/

/-- The dedup filter of `complete_step` as a predicate: a ledger entry of
this user with reason `step_complete` and `meta["step_id"]` equal to the
step id. -/
def scPred (uid sid : String) (e : XPLog) : Bool :=
  decide (e.user_id = uid ∧ e.reason = "step_complete" ∧ e.meta.step_id = some sid)

/-- Number of `step_complete` ledger entries for (user, step). -/
def countSC (logs : List XPLog) (uid sid : String) : ℕ :=
  (logs.filter (scPred uid sid)).length

/-- Total amount of `step_complete` ledger entries for (user, step). -/
def sumSC (logs : List XPLog) (uid sid : String) : ℤ :=
  ((logs.filter (scPred uid sid)).map (fun e => e.amount)).sum

/-- A `reflection`-reason ledger entry for (user, step). -/
def reflEntryPred (uid sid : String) (e : XPLog) : Bool :=
  decide (e.user_id = uid ∧ e.reason = "reflection" ∧ e.meta.step_id = some sid)

/-- Number of `reflection`-reason ledger entries for (user, step). -/
def countReflEntries (logs : List XPLog) (uid sid : String) : ℕ :=
  (logs.filter (reflEntryPred uid sid)).length

/-- Number of `reflections` rows keyed by (user, step). -/
def countReflRows (rs : List Reflection) (uid sid : String) : ℕ :=
  rs.countP (reflKey uid sid)

/-- The quantity named by the spec for the `xp_awarded` cache invariant:
the sum of the user's ledger amounts whose metadata carries this step id,
with any reason. -/
def stepTaggedSum (logs : List XPLog) (uid sid : String) : ℤ :=
  ((logs.filter (fun e => decide (e.user_id = uid ∧ e.meta.step_id = some sid))).map
    (fun e => e.amount)).sum

/-- A user's total XP: the sum of all their ledger amounts (the
`/xp/summary` total). -/
def userTotalXP (logs : List XPLog) (uid : String) : ℤ :=
  ((logs.filter (fun e => decide (e.user_id = uid))).map (fun e => e.amount)).sum

/-- Modelled from the spec's words for the C3 bonus rule: "sum …, multiply
by 0.05, round to nearest multiple of 10 (half-up)".  In exact arithmetic
that is `10 * ⌊n/200 + 1/2⌋ = 10 * ⌊(n + 100) / 200⌋`, written with integer
floor division. -/
def specBonusHalfUp (n : ℤ) : ℤ := 10 * Int.fdiv (n + 100) 200

/-- Whether a goal step has a completed progress row for the user. -/
def hasCompletedRow (db : DB) (uid : String) (st : Step) : Bool :=
  db.userSteps.any (fun us =>
    decide (us.user_id = uid ∧ us.step_id = st.id ∧ us.completed_at ≠ none))

/-- One inbound request of the engine's exposed surface. -/
inductive Op where
  | startOp (gid sid : String)
  | completeOp (gid sid : String)
  | reflectOp (gid sid text : String)
  | finishOp (gid summary : String)
  deriving DecidableEq, Repr

/-- The store state after a request (an error leaves the store
unchanged). -/
def applyOp (db : DB) (uid : String) (now : ℕ) : Op → DB
  | .startOp gid sid => (start_step db uid gid sid now).1
  | .completeOp gid sid => (complete_step db uid gid sid now).1
  | .reflectOp gid sid text => (create_or_update_reflection db uid gid sid text now).1
  | .finishOp gid summary => (finish_goal db uid gid now summary).1

/-- Run a sequence of requests, each by some user at some tick. -/
def runOps (db : DB) : List (String × ℕ × Op) → DB
  | [] => db
  | (uid, now, op) :: rest => runOps (applyOp db uid now op) rest

/-- Two progress rows do not share their (user, step) key. -/
def usDistinct (a b : UserStep) : Prop :=
  ¬(a.user_id = b.user_id ∧ a.step_id = b.step_id)

/-- The `xp_awarded` cache invariant that the code actually maintains:
progress-row keys are unique, each row's `xp_awarded` equals the sum of the
user's `step_complete` ledger entries tagged with that step, and a key with
no progress row has a zero `step_complete` sum. -/
def XpMirrorInv (db : DB) : Prop :=
  db.userSteps.Pairwise usDistinct ∧
  (∀ us ∈ db.userSteps, us.xp_awarded = sumSC db.xpLogs us.user_id us.step_id) ∧
  (∀ u s : String, findUserStep db u s = none → sumSC db.xpLogs u s = 0)

/-- Sample data: one user `u1`, one goal `g1` with an easy step `s1` at
position 1 and a hard step `s2` at position 2. -/
def dbSample : DB :=
  ⟨[⟨"g1", "u1", none, none⟩], [⟨"s1", "g1", 1, "easy"⟩, ⟨"s2", "g1", 2, "hard"⟩],
    [], [], []⟩

/-- Sample data: a zero-step goal `g2` for user `u1`, no ledger. -/
def dbZeroSteps : DB := ⟨[⟨"g2", "u1", none, none⟩], [], [], [], []⟩

/-- Sample data: a zero-step goal `g2` whose user already holds 100 XP
tagged to it in the ledger. -/
def dbBonus100 : DB :=
  ⟨[⟨"g2", "u1", none, none⟩], [], [], [⟨"u1", 100, "step_complete", ⟨some "g2", some "sX"⟩, 0⟩], []⟩

/-- Sample data: the state after `u1` starts `s1` and then reflects on it
in `dbSample`. -/
def dbStartedReflected : DB :=
  runOps dbSample [("u1", 0, .startOp "g1" "s1"), ("u1", 1, .reflectOp "g1" "s1" "t")]

/-- Helper: `walkLoop` never decreases the level. -/
theorem walkLoop_start_le (l : List ℤ) (lvl r : ℤ) :
    lvl ≤ (walkLoop l lvl r).1 := by
  induction l generalizing lvl r with
  | nil => simp [walkLoop]
  | cons a t ih =>
    simp only [walkLoop]
    split
    · exact le_trans (by omega) (ih (lvl + 1) (r - a))
    · simp

/-- Helper: starting at or below `MAX_LEVEL`, `walkLoop` stays at or below
`MAX_LEVEL` (the loop guard includes `level < MAX_LEVEL`). -/
theorem walkLoop_le_max (l : List ℤ) (lvl r : ℤ) (h : lvl ≤ MAX_LEVEL) :
    (walkLoop l lvl r).1 ≤ MAX_LEVEL := by
  induction l generalizing lvl r with
  | nil => simpa [walkLoop]
  | cons a t ih =>
    simp only [walkLoop]
    split
    · next hc => exact ih (lvl + 1) (r - a) (by omega)
    · simpa

/-- Helper: the level reached by `walkLoop` is monotone in the remaining
XP. -/
theorem walkLoop_mono (l : List ℤ) (lvl r₁ r₂ : ℤ) (h : r₁ ≤ r₂) :
    (walkLoop l lvl r₁).1 ≤ (walkLoop l lvl r₂).1 := by
  induction l generalizing lvl r₁ r₂ with
  | nil => simp [walkLoop]
  | cons a t ih =>
    by_cases h1 : a ≤ r₁ ∧ lvl < MAX_LEVEL
    · have h2 : a ≤ r₂ ∧ lvl < MAX_LEVEL := ⟨h1.1.trans h, h1.2⟩
      simp only [walkLoop, if_pos h1, if_pos h2]
      exact ih (lvl + 1) _ _ (by omega)
    · conv_lhs => simp only [walkLoop, if_neg h1]
      exact walkLoop_start_le (a :: t) lvl r₂

/-- C4 (counterexample): the requirement table does NOT begin
`[100, 110, 120, 130, 150]` as the claim states.  The code compounds the
already-rounded previous entry (`requirements[-1] * 1.10`), so entry 5 is
`round(130 * 1.1 / 10) * 10 = round(14.3) * 10 = 140`, not 150. -/
theorem levelReqs_fifth_entry_mismatch :
    ¬ LEVEL_XP_REQUIREMENTS.take 5 = [100, 110, 120, 130, 150] := by decide

/-- C4 (amended): the level-requirement table has exactly 59 positive
entries; entry 1 is 100; each later entry is the previous *stored* entry
times 1.10 rounded to a nearest multiple of 10 (ties resolved by the
binary64 evaluation, and the floor at 10 never binds) and each entry is a
multiple of 10 with `|10·entry - 11·prev| ≤ 50`; the sequence begins
`[100, 110, 120, 130, 140, …]`. -/
theorem levelReqs_characterization :
    LEVEL_XP_REQUIREMENTS.length = 59 ∧
    (∀ e ∈ LEVEL_XP_REQUIREMENTS, 0 < e) ∧
    LEVEL_XP_REQUIREMENTS.head? = some 100 ∧
    chainNearestTen LEVEL_XP_REQUIREMENTS = true ∧
    LEVEL_XP_REQUIREMENTS.take 5 = [100, 110, 120, 130, 140] := by decide

/-- C5: `compute_level_from_xp 0 = (1, 0, 100, 0.0)`,
`compute_level_from_xp 100 = (2, 0, 110, 0.0)`, and every total at or above
`XP_TO_REACH_MAX` yields the terminal plateau `(60, 0, 0, 1.0)`. -/
theorem compute_level_boundary_values :
    compute_level_from_xp 0 = (1, 0, 100, 0) ∧
    compute_level_from_xp 100 = (2, 0, 110, 0) ∧
    ∀ x : ℤ, XP_TO_REACH_MAX ≤ x → compute_level_from_xp x = (60, 0, 0, 1) := by
  refine ⟨?_, ?_, ?_⟩
  · show (1, 0, 100, Fr.toRat ⟨0, 1⟩) = (1, 0, 100, 0)
    norm_num [Fr.toRat]
  · show (2, 0, 110, Fr.toRat ⟨0, 1⟩) = (2, 0, 110, 0)
    norm_num [Fr.toRat]
  · intro x hx
    have hpos : (0:ℤ) < XP_TO_REACH_MAX := by decide
    have hx0 : ¬ x < 0 := by omega
    simp only [compute_level_from_xp, if_neg hx0, if_pos hx]
    rfl

/-- Witness for C5: the max-level clause at the concrete threshold. -/
theorem compute_level_boundary_values_witness :
    compute_level_from_xp XP_TO_REACH_MAX = (60, 0, 0, 1) :=
  compute_level_boundary_values.2.2 XP_TO_REACH_MAX le_rfl

/-- C6: `compute_level_from_xp` is deterministic, and on nonnegative inputs
its level component is monotone non-decreasing. -/
theorem compute_level_deterministic_monotone (X Y : ℤ) (hX : 0 ≤ X) (hY : 0 ≤ Y) :
    (X = Y → compute_level_from_xp X = compute_level_from_xp Y) ∧
    (X ≤ Y → (compute_level_from_xp X).1 ≤ (compute_level_from_xp Y).1) := by
  constructor
  · intro h; rw [h]
  · intro hXY
    have hX' : ¬ X < 0 := by omega
    have hY' : ¬ Y < 0 := by omega
    simp only [compute_level_from_xp, if_neg hX', if_neg hY']
    by_cases hx : XP_TO_REACH_MAX ≤ X
    · have hy : XP_TO_REACH_MAX ≤ Y := le_trans hx hXY
      rw [if_pos hx, if_pos hy]
    · by_cases hy : XP_TO_REACH_MAX ≤ Y
      · rw [if_neg hx, if_pos hy]
        have h1 : (walkLoop LEVEL_XP_REQUIREMENTS 1 X).1 ≤ MAX_LEVEL :=
          walkLoop_le_max _ _ _ (by decide)
        split
        · simp [MAX_LEVEL]
        · next hlt =>
          simp only []
          omega
      · rw [if_neg hx, if_neg hy]
        have hmono : (walkLoop LEVEL_XP_REQUIREMENTS 1 X).1 ≤
            (walkLoop LEVEL_XP_REQUIREMENTS 1 Y).1 :=
          walkLoop_mono _ _ _ _ hXY
        have h1 : (walkLoop LEVEL_XP_REQUIREMENTS 1 X).1 ≤ MAX_LEVEL :=
          walkLoop_le_max _ _ _ (by decide)
        by_cases c1 : MAX_LEVEL ≤ (walkLoop LEVEL_XP_REQUIREMENTS 1 X).1
        · have c2 : MAX_LEVEL ≤ (walkLoop LEVEL_XP_REQUIREMENTS 1 Y).1 := le_trans c1 hmono
          rw [if_pos c1, if_pos c2]
        · by_cases c2 : MAX_LEVEL ≤ (walkLoop LEVEL_XP_REQUIREMENTS 1 Y).1
          · rw [if_neg c1, if_pos c2]
            simp only []
            omega
          · rw [if_neg c1, if_neg c2]
            simpa using hmono

/-- Witness for C6: monotonicity instantiated at the concrete totals 3 and
5. -/
theorem compute_level_deterministic_monotone_witness :
    (compute_level_from_xp 3).1 ≤ (compute_level_from_xp 5).1 :=
  (compute_level_deterministic_monotone 3 5 (by decide) (by decide)).2 (by decide)

/-- Helper: what a successful goal lookup guarantees. -/
theorem findGoal_some (db : DB) (gid uid : String) (g : Goal)
    (h : findGoal db gid uid = some g) : g ∈ db.goals ∧ g.id = gid ∧ g.user_id = uid := by
  have hm := List.mem_of_find?_eq_some h
  have hp := List.find?_some h
  simp only [decide_eq_true_eq] at hp
  exact ⟨hm, hp⟩

/-- Helper: what a successful step lookup guarantees. -/
theorem findStep_some (db : DB) (sid gid : String) (s : Step)
    (h : findStep db sid gid = some s) : s ∈ db.steps ∧ s.id = sid ∧ s.goal_id = gid := by
  have hm := List.mem_of_find?_eq_some h
  have hp := List.find?_some h
  simp only [decide_eq_true_eq] at hp
  exact ⟨hm, hp⟩

/-- Helper: what a successful progress-row lookup guarantees. -/
theorem findUserStep_some (db : DB) (uid sid : String) (us : UserStep)
    (h : findUserStep db uid sid = some us) :
    us ∈ db.userSteps ∧ us.user_id = uid ∧ us.step_id = sid := by
  have hm := List.mem_of_find?_eq_some h
  have hp := List.find?_some h
  simp only [decide_eq_true_eq] at hp
  exact ⟨hm, hp⟩

/-- Helper: a failed progress-row lookup means no row has the key. -/
theorem findUserStep_none (db : DB) (uid sid : String)
    (h : findUserStep db uid sid = none) :
    ∀ us ∈ db.userSteps, ¬(us.user_id = uid ∧ us.step_id = sid) := by
  intro us hm
  have := List.find?_eq_none.mp h us hm
  simpa using this

/-- Helper: the dedup lookup finds nothing iff the entry count is zero. -/
theorem findCompletionXP_none_iff (db : DB) (uid sid : String) :
    findCompletionXP db uid sid = none ↔ countSC db.xpLogs uid sid = 0 := by
  rw [findCompletionXP, countSC, List.length_eq_zero, List.find?_eq_none,
    List.filter_eq_nil_iff]
  rfl

/-- Helper: `countSC` distributes over append. -/
theorem countSC_append (l₁ l₂ : List XPLog) (u s : String) :
    countSC (l₁ ++ l₂) u s = countSC l₁ u s + countSC l₂ u s := by
  simp [countSC, List.filter_append]

/-- Helper: `sumSC` distributes over append. -/
theorem sumSC_append (l₁ l₂ : List XPLog) (u s : String) :
    sumSC (l₁ ++ l₂) u s = sumSC l₁ u s + sumSC l₂ u s := by
  simp [sumSC, List.filter_append]

/-- Helper: `scPred` on the entry `complete_step` writes. -/
theorem scPred_scEntry (u g s : String) (b : ℤ) (n : ℕ) (u' s' : String) :
    scPred u' s' (scEntry u g s b n) = decide (u = u' ∧ s = s') := by
  simp only [scPred, scEntry]
  apply decide_eq_decide.mpr
  constructor
  · rintro ⟨h1, _, h3⟩
    exact ⟨h1, by simpa using h3⟩
  · rintro ⟨h1, h2⟩
    refine ⟨h1, ?_, ?_⟩ <;> simp [h2]

/-- Helper: `countSC` of a singleton. -/
theorem countSC_single (e : XPLog) (u s : String) :
    countSC [e] u s = if scPred u s e then 1 else 0 := by
  by_cases hc : scPred u s e <;> simp [countSC, List.filter_cons, hc]

/-- Helper: `sumSC` of a singleton. -/
theorem sumSC_single (e : XPLog) (u s : String) :
    sumSC [e] u s = if scPred u s e then e.amount else 0 := by
  by_cases hc : scPred u s e <;> simp [sumSC, List.filter_cons, hc]

/-- C1: one invocation of `complete_step` brings the number of
`step_complete` ledger entries for this (user, step) to
`max (previous count) 1` — a first completion appends exactly one entry and
credits the difficulty-based amount once (easy 10 / medium 20 / hard 40,
anything else 10); any later completion appends nothing and credits
nothing.  Iterating the operation therefore leaves exactly one entry. -/
theorem complete_step_awards_once (db : DB) (uid gid sid : String) (now : ℕ)
    (db' : DB) (res : CompleteResult)
    (h : complete_step db uid gid sid now = (db', .ok res)) :
    (baseXP "easy" = 10 ∧ baseXP "medium" = 20 ∧ baseXP "hard" = 40 ∧
      ∀ d, d ≠ "easy" → d ≠ "medium" → d ≠ "hard" → baseXP d = 10) ∧
    countSC db'.xpLogs uid sid = max (countSC db.xpLogs uid sid) 1 ∧
    (countSC db.xpLogs uid sid = 0 →
      ∃ st, findStep db sid gid = some st ∧
        sumSC db'.xpLogs uid sid = sumSC db.xpLogs uid sid + baseXP st.difficulty ∧
        res.xp_awarded = baseXP st.difficulty) ∧
    (0 < countSC db.xpLogs uid sid →
      countSC db'.xpLogs uid sid = countSC db.xpLogs uid sid ∧
      sumSC db'.xpLogs uid sid = sumSC db.xpLogs uid sid ∧ res.xp_awarded = 0) := by
  refine ⟨⟨rfl, rfl, rfl, ?_⟩, ?_⟩
  · intro d h1 h2 h3
    simp [baseXP, h1, h2, h3]
  · unfold complete_step at h
    cases hg : findGoal db gid uid with
    | none => rw [hg] at h; simp at h
    | some goal =>
      rw [hg] at h
      dsimp only at h
      obtain ⟨-, hgid, -⟩ := findGoal_some db gid uid goal hg
      subst hgid
      cases hs : findStep db sid goal.id with
      | none => rw [hs] at h; simp at h
      | some step =>
        rw [hs] at h
        dsimp only at h
        obtain ⟨-, hsid, -⟩ := findStep_some db sid goal.id step hs
        cases hq : seqGuard db uid goal.id step.position with
        | some e => rw [hq] at h; simp at h
        | none =>
          rw [hq] at h
          dsimp only at h
          unfold completeStepBody at h
          subst hsid
          cases hu : findUserStep db uid step.id with
          | none =>
            rw [hu] at h
            dsimp only at h
            cases hc : findCompletionXP db uid step.id with
            | some e0 =>
              rw [hc] at h
              dsimp only at h
              simp only [Prod.mk.injEq, Except.ok.injEq] at h
              obtain ⟨hdb, hres⟩ := h
              subst hdb
              have hcnt : countSC db.xpLogs uid step.id ≠ 0 := by
                intro h0
                rw [← findCompletionXP_none_iff] at h0
                rw [h0] at hc; exact Option.noConfusion hc
              refine ⟨?_, ?_, ?_⟩
              · simp only []
                omega
              · intro h0; exact absurd h0 hcnt
              · intro _; exact ⟨rfl, rfl, by rw [← hres]⟩
            | none =>
              rw [hc] at h
              dsimp only at h
              simp only [Prod.mk.injEq, Except.ok.injEq] at h
              obtain ⟨hdb, hres⟩ := h
              subst hdb
              have hcnt : countSC db.xpLogs uid step.id = 0 :=
                (findCompletionXP_none_iff db uid step.id).mp hc
              refine ⟨?_, ?_, ?_⟩
              · simp only [countSC_append, countSC_single, scPred_scEntry]
                simp [hcnt]
              · intro _
                refine ⟨step, rfl, ?_, ?_⟩
                · simp only [sumSC_append, sumSC_single, scPred_scEntry]
                  simp [scEntry]
                · rw [← hres]
              · intro h0; omega
          | some us =>
            rw [hu] at h
            dsimp only at h
            cases hc : findCompletionXP db uid step.id with
            | some e0 =>
              rw [hc] at h
              dsimp only at h
              simp only [Prod.mk.injEq, Except.ok.injEq] at h
              obtain ⟨hdb, hres⟩ := h
              subst hdb
              have hcnt : countSC db.xpLogs uid step.id ≠ 0 := by
                intro h0
                rw [← findCompletionXP_none_iff] at h0
                rw [h0] at hc; exact Option.noConfusion hc
              refine ⟨?_, ?_, ?_⟩
              · simp only []
                omega
              · intro h0; exact absurd h0 hcnt
              · intro _; exact ⟨rfl, rfl, by rw [← hres]⟩
            | none =>
              rw [hc] at h
              dsimp only at h
              simp only [Prod.mk.injEq, Except.ok.injEq] at h
              obtain ⟨hdb, hres⟩ := h
              subst hdb
              have hcnt : countSC db.xpLogs uid step.id = 0 :=
                (findCompletionXP_none_iff db uid step.id).mp hc
              refine ⟨?_, ?_, ?_⟩
              · simp only [countSC_append, countSC_single, scPred_scEntry]
                simp [hcnt]
              · intro _
                refine ⟨step, rfl, ?_, ?_⟩
                · simp only [sumSC_append, sumSC_single, scPred_scEntry]
                  simp [scEntry]
                · rw [← hres]
              · intro h0; omega

/-- Witness for C1: completing the easy first step of `dbSample` puts the
`step_complete` entry count for (`u1`, `s1`) at `max 0 1 = 1`. -/
theorem complete_step_awards_once_witness :
    countSC (complete_step dbSample "u1" "g1" "s1" 0).1.xpLogs "u1" "s1" =
      max (countSC dbSample.xpLogs "u1" "s1") 1 :=
  (complete_step_awards_once dbSample "u1" "g1" "s1" 0 _ _ rfl).2.1

/-- Helper: `maxByPos` returns an element of the list. -/
theorem maxByPos_mem (l : List Step) (b : Step) (h : maxByPos l = some b) : b ∈ l := by
  induction l generalizing b with
  | nil => simp [maxByPos] at h
  | cons a t ih =>
    simp only [maxByPos] at h
    cases hm : maxByPos t with
    | none =>
      rw [hm] at h
      dsimp only at h
      simp only [Option.some.injEq] at h
      subst h
      exact List.mem_cons_self a t
    | some c =>
      rw [hm] at h
      dsimp only at h
      by_cases hp : a.position < c.position
      · rw [if_pos hp] at h
        simp only [Option.some.injEq] at h
        subst h
        exact List.mem_cons_of_mem a (ih c hm)
      · rw [if_neg hp] at h
        simp only [Option.some.injEq] at h
        subst h
        exact List.mem_cons_self a t

/-- Helper: a strictly dominating element is what `maxByPos` returns. -/
theorem maxByPos_eq_of_dominating (l : List Step) (p : Step) (hp : p ∈ l)
    (hd : ∀ q ∈ l, q = p ∨ q.position < p.position) : maxByPos l = some p := by
  induction l with
  | nil => simp at hp
  | cons a t ih =>
    rcases List.mem_cons.mp hp with rfl | hpt
    · simp only [maxByPos]
      cases hm : maxByPos t with
      | none => rfl
      | some b =>
        have hb : b ∈ t := maxByPos_mem t b hm
        dsimp only
        rcases hd b (List.mem_cons_of_mem _ hb) with rfl | hlt
        · simp
        · rw [if_neg (by omega)]
    · rcases hd a (List.mem_cons_self a t) with rfl | hlt
      · simp only [maxByPos]
        cases hm : maxByPos t with
        | none => rfl
        | some b =>
          have hb : b ∈ t := maxByPos_mem t b hm
          dsimp only
          rcases hd b (List.mem_cons_of_mem _ hb) with rfl | hlt2
          · simp
          · rw [if_neg (by omega)]
      · have ht : maxByPos t = some p :=
          ih hpt (fun q hq => hd q (List.mem_cons_of_mem _ hq))
        simp only [maxByPos, ht]
        rw [if_pos hlt]

/-- Helper: when the strictly dominating predecessor's progress is not
completed, the sequence guard fires. -/
theorem seqGuard_violation (db : DB) (uid gid : String) (pos : ℤ) (p : Step)
    (hp : p ∈ db.steps) (hpg : p.goal_id = gid) (hpp : p.position < pos)
    (hd : ∀ q ∈ db.steps, q.goal_id = gid → q.position < pos →
      q = p ∨ q.position < p.position)
    (hnc : ∀ pus, findUserStep db uid p.id = some pus → pus.completed_at = none) :
    seqGuard db uid gid pos = some .sequenceViolation := by
  have hprev : prevStep db gid pos = some p := by
    apply maxByPos_eq_of_dominating
    · exact List.mem_filter.mpr ⟨hp, by simp [hpg, hpp]⟩
    · intro q hq
      obtain ⟨hq1, hq2⟩ := List.mem_filter.mp hq
      simp only [decide_eq_true_eq] at hq2
      exact hd q hq1 hq2.1 hq2.2
  unfold seqGuard
  rw [hprev]
  dsimp only
  cases hu : findUserStep db uid p.id with
  | none => rfl
  | some pus =>
    dsimp only
    rw [if_pos (hnc pus hu)]

/-- Helper: with no predecessor step the sequence guard passes. -/
theorem seqGuard_pass_of_no_pred (db : DB) (uid gid : String) (pos : ℤ)
    (hnone : ∀ q ∈ db.steps, ¬(q.goal_id = gid ∧ q.position < pos)) :
    seqGuard db uid gid pos = none := by
  have hprev : prevStep db gid pos = none := by
    unfold prevStep
    have hnil : db.steps.filter (fun s => decide (s.goal_id = gid ∧ s.position < pos)) = [] :=
      List.filter_eq_nil_iff.mpr (by intro a ha; simpa using hnone a ha)
    rw [hnil]
    rfl
  unfold seqGuard
  rw [hprev]

/-- C2: with the goal and step resolved, if the step has a predecessor in
the goal (the maximal-position step below it) whose progress for this user
is absent or not completed, then both `start_step` and `complete_step`
return `SequenceViolation` and leave the store unchanged; if the step has
no predecessor (first step), both operations succeed unconditionally. -/
theorem step_order_guard (db : DB) (uid gid sid : String) (now : ℕ) (g : Goal) (s : Step)
    (hg : findGoal db gid uid = some g)
    (hs : findStep db sid g.id = some s) :
    (∀ p : Step, p ∈ db.steps → p.goal_id = g.id → p.position < s.position →
      (∀ q ∈ db.steps, q.goal_id = g.id → q.position < s.position →
        q = p ∨ q.position < p.position) →
      (∀ pus, findUserStep db uid p.id = some pus → pus.completed_at = none) →
      start_step db uid gid sid now = (db, .error .sequenceViolation) ∧
      complete_step db uid gid sid now = (db, .error .sequenceViolation)) ∧
    ((∀ q ∈ db.steps, ¬(q.goal_id = g.id ∧ q.position < s.position)) →
      (∃ db₁ r₁, start_step db uid gid sid now = (db₁, .ok r₁)) ∧
      (∃ db₂ r₂, complete_step db uid gid sid now = (db₂, .ok r₂))) := by
  constructor
  · intro p hp hpg hpp hd hnc
    have hguard := seqGuard_violation db uid g.id s.position p hp hpg hpp hd hnc
    constructor
    · unfold start_step
      rw [hg]
      dsimp only
      rw [hs]
      dsimp only
      rw [hguard]
    · unfold complete_step
      rw [hg]
      dsimp only
      rw [hs]
      dsimp only
      rw [hguard]
  · intro hnone
    have hguard := seqGuard_pass_of_no_pred db uid g.id s.position hnone
    constructor
    · unfold start_step
      rw [hg]
      dsimp only
      rw [hs]
      dsimp only
      rw [hguard]
      dsimp only
      unfold startStepBody
      cases hu : findUserStep db uid s.id with
      | none => exact ⟨_, _, rfl⟩
      | some us =>
        dsimp only
        by_cases hst : us.started_at = none
        · rw [if_pos hst]
          exact ⟨_, _, rfl⟩
        · rw [if_neg hst]
          exact ⟨_, _, rfl⟩
    · unfold complete_step
      rw [hg]
      dsimp only
      rw [hs]
      dsimp only
      rw [hguard]
      dsimp only
      unfold completeStepBody
      cases hu : findUserStep db uid s.id with
      | none =>
        dsimp only
        cases hc : findCompletionXP db uid s.id with
        | some e0 => exact ⟨_, _, rfl⟩
        | none => exact ⟨_, _, rfl⟩
      | some us =>
        dsimp only
        cases hc : findCompletionXP db uid s.id with
        | some e0 => exact ⟨_, _, rfl⟩
        | none => exact ⟨_, _, rfl⟩

/-- Witness for C2: in `dbSample`, starting or completing `s2` before `s1`
is completed fails with `SequenceViolation` and changes nothing. -/
theorem step_order_guard_witness :
    start_step dbSample "u1" "g1" "s2" 0 = (dbSample, .error .sequenceViolation) ∧
    complete_step dbSample "u1" "g1" "s2" 0 = (dbSample, .error .sequenceViolation) :=
  (step_order_guard dbSample "u1" "g1" "s2" 0 ⟨"g1", "u1", none, none⟩
      ⟨"s2", "g1", 2, "hard"⟩ rfl rfl).1
    ⟨"s1", "g1", 1, "easy"⟩ (by decide) rfl (by decide) (by decide)
    (by intro pus h; simp [findUserStep, dbSample] at h)

/-- Helper: what a successful reflection lookup guarantees. -/
theorem findReflection_some (db : DB) (uid sid : String) (r : Reflection)
    (h : findReflection db uid sid = some r) :
    r ∈ db.reflections ∧ r.user_id = uid ∧ r.step_id = sid := by
  have hm := List.mem_of_find?_eq_some h
  have hp := List.find?_some h
  simp only [decide_eq_true_eq] at hp
  exact ⟨hm, hp⟩

/-- Helper: the reflection lookup finds nothing iff the row count is
zero. -/
theorem findReflection_none_iff (db : DB) (uid sid : String) :
    findReflection db uid sid = none ↔ countReflRows db.reflections uid sid = 0 := by
  rw [findReflection, countReflRows, List.countP_eq_length_filter, List.length_eq_zero,
    List.find?_eq_none, List.filter_eq_nil_iff]
  rfl

/-- Helper: replacing the first match by a value that still matches keeps
the match count. -/
theorem countP_updFirst_const {α : Type} (p : α → Bool) (v : α) (l : List α)
    (hv : p v = true) :
    (updFirst p (fun _ => v) l).countP p = l.countP p := by
  induction l with
  | nil => rfl
  | cons x t ih =>
    by_cases hx : p x = true
    · simp [updFirst, hx, List.countP_cons, hv]
    · simp [updFirst, hx, List.countP_cons, ih]

/-- C7: the first `create_or_update_reflection` for a (user, step) creates
the single row and appends the single flat-5-XP `reflection` ledger entry;
any later call only rewrites the row's text, appending nothing, so row and
entry counts stay at one each. -/
theorem reflection_first_award (db : DB) (uid gid sid text : String) (now : ℕ)
    (db' : DB) (r : Reflection)
    (h : create_or_update_reflection db uid gid sid text now = (db', .ok r)) :
    (findReflection db uid sid = none →
      db'.reflections = db.reflections ++ [⟨uid, sid, text, now⟩] ∧
      db'.xpLogs = db.xpLogs ++ [reflectionEntry uid gid sid now] ∧
      (reflectionEntry uid gid sid now).amount = 5 ∧
      (reflectionEntry uid gid sid now).reason = "reflection" ∧
      countReflRows db'.reflections uid sid = countReflRows db.reflections uid sid + 1 ∧
      countReflEntries db'.xpLogs uid sid = countReflEntries db.xpLogs uid sid + 1) ∧
    (∀ r₀, findReflection db uid sid = some r₀ →
      db'.xpLogs = db.xpLogs ∧
      countReflRows db'.reflections uid sid = countReflRows db.reflections uid sid ∧
      r = { r₀ with text := text }) ∧
    (countReflRows db.reflections uid sid ≤ 1 →
      countReflEntries db.xpLogs uid sid ≤ countReflRows db.reflections uid sid →
      countReflRows db'.reflections uid sid ≤ 1 ∧
      countReflEntries db'.xpLogs uid sid ≤ countReflRows db'.reflections uid sid) := by
  unfold create_or_update_reflection at h
  cases hg : findGoal db gid uid with
  | none => rw [hg] at h; simp at h
  | some goal =>
    rw [hg] at h
    dsimp only at h
    cases hs : findStep db sid goal.id with
    | none => rw [hs] at h; simp at h
    | some step =>
      rw [hs] at h
      dsimp only at h
      cases hr : findReflection db uid sid with
      | some r₀ =>
        rw [hr] at h
        dsimp only at h
        simp only [Prod.mk.injEq, Except.ok.injEq] at h
        obtain ⟨hdb, hres⟩ := h
        subst hdb
        obtain ⟨-, hu0, hs0⟩ := findReflection_some db uid sid r₀ hr
        have hkey : reflKey uid sid { r₀ with text := text } = true := by
          simp [reflKey, hu0, hs0]
        have hcnt : countReflRows
            (updFirst (reflKey uid sid) (fun _ => { r₀ with text := text }) db.reflections)
            uid sid = countReflRows db.reflections uid sid :=
          countP_updFirst_const (reflKey uid sid) _ db.reflections hkey
        refine ⟨?_, ?_, ?_⟩
        · intro habs; exact absurd habs (by simp)
        · intro r₁ h₁
          simp only [Option.some.injEq] at h₁
          subst h₁
          exact ⟨rfl, hcnt, hres.symm⟩
        · intro h1 h2
          refine ⟨by rw [hcnt]; exact h1, by rw [hcnt]; exact h2⟩
      | none =>
        rw [hr] at h
        dsimp only at h
        simp only [Prod.mk.injEq, Except.ok.injEq] at h
        obtain ⟨hdb, hres⟩ := h
        subst hdb
        have hrow : reflKey uid sid (⟨uid, sid, text, now⟩ : Reflection) = true := by
          simp [reflKey]
        have hent : reflEntryPred uid sid (reflectionEntry uid gid sid now) = true := by
          simp [reflEntryPred, reflectionEntry]
        have hcnt0 : countReflRows db.reflections uid sid = 0 :=
          (findReflection_none_iff db uid sid).mp hr
        refine ⟨?_, ?_, ?_⟩
        · intro _
          refine ⟨rfl, rfl, rfl, rfl, ?_, ?_⟩
          · dsimp only
            simp [countReflRows, List.countP_append, List.countP_cons, hrow]
          · dsimp only
            simp [countReflEntries, List.filter_append, List.filter_cons, hent]
        · intro r₁ h₁; exact absurd h₁ (by simp)
        · intro h1 h2
          dsimp only
          have e1 : countReflRows (db.reflections ++ [(⟨uid, sid, text, now⟩ : Reflection)])
              uid sid = countReflRows db.reflections uid sid + 1 := by
            simp [countReflRows, List.countP_append, List.countP_cons, hrow]
          have e2 : countReflEntries (db.xpLogs ++ [reflectionEntry uid gid sid now]) uid sid =
              countReflEntries db.xpLogs uid sid + 1 := by
            simp [countReflEntries, List.filter_append, List.filter_cons, hent]
          rw [e1, e2]
          omega

/-- Witness for C7: the first reflection on `s1` in `dbSample` appends
exactly one `reflection` ledger entry. -/
theorem reflection_first_award_witness :
    countReflEntries (create_or_update_reflection dbSample "u1" "g1" "s1" "t" 0).1.xpLogs
        "u1" "s1" =
      countReflEntries dbSample.xpLogs "u1" "s1" + 1 :=
  ((reflection_first_award dbSample "u1" "g1" "s1" "t" 0 _ _ rfl).1 rfl).2.2.2.2.2

/-- Helper: `find?` splits the list at the first match, and `updFirst`
replaces exactly that element. -/
theorem updFirst_split {α : Type} (p : α → Bool) (f : α → α) (l : List α) (x : α)
    (h : l.find? p = some x) :
    ∃ l₁ l₂, l = l₁ ++ x :: l₂ ∧ updFirst p f l = l₁ ++ f x :: l₂ ∧
      ∀ z ∈ l₁, p z = false := by
  induction l with
  | nil => simp at h
  | cons a t ih =>
    by_cases ha : p a = true
    · rw [List.find?_cons_of_pos t ha] at h
      simp only [Option.some.injEq] at h
      subst h
      exact ⟨[], t, rfl, by simp [updFirst, ha], by simp⟩
    · rw [List.find?_cons_of_neg t (by simpa using ha)] at h
      obtain ⟨l₁, l₂, he, hu, hz⟩ := ih h
      refine ⟨a :: l₁, l₂, by rw [he]; rfl, ?_, ?_⟩
      · simp only [updFirst, if_neg ha, hu]
        rfl
      · intro z hz2
        rcases List.mem_cons.mp hz2 with rfl | hz3
        · simpa using ha
        · exact hz z hz3

/-- C10: a successful `start_step` touches nothing but the progress row of
(user, step): the ledger (hence every user's total XP), goals, steps and
reflections are unchanged; every pre-existing progress row keeps its key,
`completed_at` and `xp_awarded` (`started_at` is filled in only when it was
unset); and the row list is unchanged, or has that one row's `started_at`
set, or gains exactly the one fresh row. -/
theorem start_step_frame (db : DB) (uid gid sid : String) (now : ℕ)
    (db' : DB) (r : StartResult)
    (h : start_step db uid gid sid now = (db', .ok r)) :
    db'.xpLogs = db.xpLogs ∧ db'.goals = db.goals ∧ db'.steps = db.steps ∧
    db'.reflections = db.reflections ∧
    (∀ u, userTotalXP db'.xpLogs u = userTotalXP db.xpLogs u) ∧
    (∀ us ∈ db.userSteps, ∃ us' ∈ db'.userSteps,
      us'.user_id = us.user_id ∧ us'.step_id = us.step_id ∧
      us'.completed_at = us.completed_at ∧ us'.xp_awarded = us.xp_awarded ∧
      (us'.started_at = us.started_at ∨
        (us.started_at = none ∧ us'.started_at = some now))) ∧
    ((∃ us, findUserStep db uid sid = some us ∧ us.started_at ≠ none ∧
        db'.userSteps = db.userSteps) ∨
     (∃ us, findUserStep db uid sid = some us ∧ us.started_at = none ∧
        db'.userSteps = updFirst (usKey uid sid)
          (fun x => { x with started_at := some now }) db.userSteps) ∨
     (findUserStep db uid sid = none ∧
        db'.userSteps = db.userSteps ++ [⟨uid, sid, some now, none, 0⟩])) := by
  unfold start_step at h
  cases hg : findGoal db gid uid with
  | none => rw [hg] at h; simp at h
  | some goal =>
    rw [hg] at h
    dsimp only at h
    cases hs : findStep db sid goal.id with
    | none => rw [hs] at h; simp at h
    | some step =>
      rw [hs] at h
      dsimp only at h
      obtain ⟨-, hsid, -⟩ := findStep_some db sid goal.id step hs
      subst hsid
      cases hq : seqGuard db uid goal.id step.position with
      | some e => rw [hq] at h; simp at h
      | none =>
        rw [hq] at h
        dsimp only at h
        unfold startStepBody at h
        cases hu : findUserStep db uid step.id with
        | none =>
          rw [hu] at h
          dsimp only at h
          simp only [Prod.mk.injEq, Except.ok.injEq] at h
          obtain ⟨hdb, -⟩ := h
          subst hdb
          refine ⟨rfl, rfl, rfl, rfl, fun u => rfl, ?_, Or.inr (Or.inr ⟨rfl, rfl⟩)⟩
          intro us hm
          exact ⟨us, List.mem_append_left _ hm, rfl, rfl, rfl, rfl, Or.inl rfl⟩
        | some us =>
          rw [hu] at h
          dsimp only at h
          by_cases hst : us.started_at = none
          · rw [if_pos hst] at h
            simp only [Prod.mk.injEq, Except.ok.injEq] at h
            obtain ⟨hdb, -⟩ := h
            subst hdb
            refine ⟨rfl, rfl, rfl, rfl, fun u => rfl, ?_,
              Or.inr (Or.inl ⟨us, rfl, hst, rfl⟩)⟩
            intro us2 hm
            obtain ⟨l₁, l₂, he, hupd, -⟩ :=
              updFirst_split (usKey uid step.id)
                (fun x => { x with started_at := some now }) db.userSteps us hu
            rw [he] at hm
            dsimp only
            rw [hupd]
            rcases List.mem_append.mp hm with hm1 | hm2
            · exact ⟨us2, List.mem_append_left _ hm1, rfl, rfl, rfl, rfl, Or.inl rfl⟩
            · rcases List.mem_cons.mp hm2 with rfl | hm3
              · refine ⟨{ us2 with started_at := some now },
                  List.mem_append_right _ (List.mem_cons_self _ _), rfl, rfl, rfl, rfl,
                  Or.inr ⟨hst, rfl⟩⟩
              · exact ⟨us2, List.mem_append_right _ (List.mem_cons_of_mem _ hm3),
                  rfl, rfl, rfl, rfl, Or.inl rfl⟩
          · rw [if_neg hst] at h
            simp only [Prod.mk.injEq, Except.ok.injEq] at h
            obtain ⟨hdb, -⟩ := h
            subst hdb
            refine ⟨rfl, rfl, rfl, rfl, fun u => rfl, ?_, Or.inl ⟨us, rfl, hst, rfl⟩⟩
            intro us2 hm
            exact ⟨us2, hm, rfl, rfl, rfl, rfl, Or.inl rfl⟩

/-- Witness for C10: starting the first step of `dbSample` leaves the
ledger untouched. -/
theorem start_step_frame_witness :
    (start_step dbSample "u1" "g1" "s1" 0).1.xpLogs = dbSample.xpLogs :=
  (start_step_frame dbSample "u1" "g1" "s1" 0 _ _ rfl).1

/-- Helper: a filter over a pairwise-"distinct" list in which any two
matches would be related keeps at most one element. -/
theorem filter_length_le_one {α : Type} {l : List α} {p : α → Bool} {R : α → α → Prop}
    (hR : l.Pairwise R) (h : ∀ a b, p a = true → p b = true → R a b → False) :
    (l.filter p).length ≤ 1 := by
  induction l with
  | nil => simp
  | cons x t ih =>
    rcases List.pairwise_cons.mp hR with ⟨hx, ht⟩
    by_cases hp : p x = true
    · have hnil : t.filter p = [] := by
        rw [List.filter_eq_nil_iff]
        intro b hb hpb
        exact h x b hp hpb (hx b hb)
      simp [List.filter_cons, hp, hnil]
    · simp only [List.filter_cons, if_neg hp]
      exact ih ht

/-- Helper: under unique progress-row keys, each goal step contributes its
join rows as 0 or 1 according to `hasCompletedRow`. -/
theorem inner_completed_count (db : DB) (uid : String) (st : Step)
    (hus : db.userSteps.Pairwise
      (fun a b => ¬(a.user_id = b.user_id ∧ a.step_id = b.step_id))) :
    (db.userSteps.filter (fun us =>
        decide (us.user_id = uid ∧ us.step_id = st.id ∧ us.completed_at ≠ none))).length =
      if hasCompletedRow db uid st then 1 else 0 := by
  by_cases hc : hasCompletedRow db uid st = true
  · rw [if_pos hc]
    obtain ⟨us, hm, hp⟩ := List.any_eq_true.mp hc
    have hle : (db.userSteps.filter (fun us =>
        decide (us.user_id = uid ∧ us.step_id = st.id ∧ us.completed_at ≠ none))).length ≤ 1 := by
      apply filter_length_le_one hus
      intro a b hpa hpb hR
      simp only [decide_eq_true_eq] at hpa hpb
      exact hR ⟨hpa.1.trans hpb.1.symm, hpa.2.1.trans hpb.2.1.symm⟩
    have hge : us ∈ db.userSteps.filter (fun us =>
        decide (us.user_id = uid ∧ us.step_id = st.id ∧ us.completed_at ≠ none)) :=
      List.mem_filter.mpr ⟨hm, hp⟩
    have hpos := List.length_pos.mpr (List.ne_nil_of_mem hge)
    omega
  · rw [if_neg hc]
    rw [List.length_eq_zero, List.filter_eq_nil_iff]
    intro a ha hpa
    exact hc (List.any_eq_true.mpr ⟨a, ha, hpa⟩)

/-- Helper: under unique progress-row keys, the join count of
`finish_goal` is the number of goal steps with a completed progress
row. -/
theorem completedJoinCount_eq (db : DB) (uid gid : String)
    (hus : db.userSteps.Pairwise
      (fun a b => ¬(a.user_id = b.user_id ∧ a.step_id = b.step_id))) :
    completedJoinCount db uid gid = (goalSteps db gid).countP (hasCompletedRow db uid) := by
  unfold completedJoinCount
  rw [List.length_flatMap]
  induction goalSteps db gid with
  | nil => rfl
  | cons a t ih =>
    simp only [List.map_cons, List.sum_cons, List.countP_cons, Function.comp_apply, ih]
    rw [inner_completed_count db uid a hus]
    exact Nat.add_comm _ _

/-- C8: with the goal resolved and progress-row keys unique, `finish_goal`
fails with `IncompletePrerequisite` (leaving the store unchanged) exactly
when some step of the goal lacks a completed progress row for this user,
and succeeds whenever every step has one — in particular for a goal with
zero steps, whose precondition holds vacuously. -/
theorem finish_goal_prerequisite (db : DB) (uid gid : String) (now : ℕ) (summary : String)
    (g : Goal) (hg : findGoal db gid uid = some g)
    (hus : db.userSteps.Pairwise
      (fun a b => ¬(a.user_id = b.user_id ∧ a.step_id = b.step_id))) :
    ((∃ st ∈ goalSteps db g.id, hasCompletedRow db uid st = false) →
      finish_goal db uid gid now summary = (db, .error .incompletePrerequisite)) ∧
    ((∀ st ∈ goalSteps db g.id, hasCompletedRow db uid st = true) →
      ∃ db' r, finish_goal db uid gid now summary = (db', .ok r)) := by
  obtain ⟨-, hgid, -⟩ := findGoal_some db gid uid g hg
  subst hgid
  have hcount := completedJoinCount_eq db uid g.id hus
  constructor
  · rintro ⟨st, hst, hfalse⟩
    have hne : (goalSteps db g.id).countP (hasCompletedRow db uid) ≠
        (goalSteps db g.id).length := by
      intro he
      have := List.countP_eq_length.mp he st hst
      rw [hfalse] at this
      exact Bool.noConfusion this
    have hle := List.countP_le_length (hasCompletedRow db uid)
      (l := goalSteps db g.id)
    have h0 : 0 < (goalSteps db g.id).length :=
      List.length_pos.mpr (List.ne_nil_of_mem hst)
    unfold finish_goal
    rw [hg]
    dsimp only
    rw [if_pos ⟨h0, by omega⟩]
  · intro hall
    have heq : completedJoinCount db uid g.id = (goalSteps db g.id).length := by
      rw [hcount]
      exact List.countP_eq_length.mpr hall
    unfold finish_goal
    rw [hg]
    dsimp only
    rw [if_neg (by rintro ⟨-, hlt⟩; omega)]
    exact ⟨_, _, rfl⟩

/-- Witness for C8: in `dbSample`, `s1` has no completed progress row, so
finishing `g1` fails with `IncompletePrerequisite`. -/
theorem finish_goal_prerequisite_witness :
    finish_goal dbSample "u1" "g1" 0 "s" = (dbSample, .error .incompletePrerequisite) :=
  (finish_goal_prerequisite dbSample "u1" "g1" 0 "s" ⟨"g1", "u1", none, none⟩ rfl
      List.Pairwise.nil).1
    ⟨⟨"s1", "g1", 1, "easy"⟩, by decide, by decide⟩

/-- C3 (amended): a successful `finish_goal` returns as bonus exactly
`round((sum of the user's ledger amounts tagged with this goal) * 0.05 / 10) * 10`
computed in binary64 with Python's half-to-even `round`, and appends one
`goal_complete` entry of that amount iff it is positive.  Consequently the
bonus is 0 for every goal-tagged sum up to 100 (ties such as 100 round to
even, not half-up), and is positive from 101 on (e.g. 10 at 101). -/
theorem finish_goal_bonus (db : DB) (uid gid : String) (now : ℕ) (summary : String)
    (db' : DB) (r : FinishResult)
    (h : finish_goal db uid gid now summary = (db', .ok r)) :
    r.bonus_xp = bonusFromTotal (totalGoalXP db uid gid) ∧
    (0 < bonusFromTotal (totalGoalXP db uid gid) →
      db'.xpLogs = db.xpLogs ++
        [goalCompleteEntry uid gid (bonusFromTotal (totalGoalXP db uid gid)) now]) ∧
    (¬ 0 < bonusFromTotal (totalGoalXP db uid gid) → db'.xpLogs = db.xpLogs) ∧
    bonusFromTotal 60 = 0 ∧ bonusFromTotal 100 = 0 ∧ bonusFromTotal 101 = 10 ∧
    (∀ n : ℕ, n ≤ 100 → bonusFromTotal n = 0) := by
  unfold finish_goal at h
  cases hg : findGoal db gid uid with
  | none => rw [hg] at h; simp at h
  | some g =>
    rw [hg] at h
    dsimp only at h
    obtain ⟨-, hgid, -⟩ := findGoal_some db gid uid g hg
    subst hgid
    by_cases hcond : 0 < (goalSteps db g.id).length ∧
        completedJoinCount db uid g.id < (goalSteps db g.id).length
    · rw [if_pos hcond] at h
      simp at h
    · rw [if_neg hcond] at h
      simp only [Prod.mk.injEq, Except.ok.injEq] at h
      obtain ⟨hdb, hres⟩ := h
      subst hdb
      refine ⟨by rw [← hres], ?_, ?_, by decide, by decide, by decide, ?_⟩
      · intro hb
        dsimp only
        rw [if_pos hb]
      · intro hb
        dsimp only
        rw [if_neg hb]
      · intro n hn
        have hall : ((List.range 101).all fun k => bonusFromTotal k == 0) = true := by
          decide
        have hmem := List.all_eq_true.mp hall n (List.mem_range.mpr (by omega))
        simpa using hmem

/-- Witness for C3: finishing the zero-step goal `g2` with an empty ledger
returns bonus `bonusFromTotal 0 = 0`. -/
theorem finish_goal_bonus_witness :
    (⟨"g2", 0, 0, "s"⟩ : FinishResult).bonus_xp =
      bonusFromTotal (totalGoalXP dbZeroSteps "u1" "g2") :=
  (finish_goal_bonus dbZeroSteps "u1" "g2" 0 "s" _ _ rfl).1

/-- C3 (counterexample): for a goal-tagged ledger sum of exactly 100 the
code's bonus is 0 (`100 * 0.05 = 5.0`, `5.0 / 10 = 0.5`, and Python's
`round(0.5)` is 0, ties-to-even), while the claim's half-up rounding
mandates `round(0.5) * 10 = 10`. -/
theorem finish_goal_bonus_not_half_up :
    (finish_goal dbBonus100 "u1" "g2" 1 "s").2 =
      Except.ok (⟨"g2", 0, 1, "s"⟩ : FinishResult) ∧
    specBonusHalfUp 100 = 10 ∧ (0 : ℤ) ≠ 10 :=
  ⟨rfl, by decide, by decide⟩

/-- Helper: the reflection award entry never matches the `step_complete`
filter (its reason is `reflection`). -/
theorem scPred_reflectionEntry (u g s : String) (n : ℕ) (u' s' : String) :
    scPred u' s' (reflectionEntry u g s n) = false := by
  simp [scPred, reflectionEntry]

/-- Helper: the goal bonus entry never matches the `step_complete` filter
(its reason is `goal_complete` and it carries no step id). -/
theorem scPred_goalCompleteEntry (u g : String) (b : ℤ) (n : ℕ) (u' s' : String) :
    scPred u' s' (goalCompleteEntry u g b n) = false := by
  simp [scPred, goalCompleteEntry]

/-- Helper: appending a non-`step_complete` entry changes no `sumSC`. -/
theorem sumSC_append_nonSC (l : List XPLog) (e : XPLog) (u s : String)
    (he : scPred u s e = false) : sumSC (l ++ [e]) u s = sumSC l u s := by
  rw [sumSC_append, sumSC_single, he]
  simp

/-- Helper: the invariant only reads progress rows and the ledger. -/
theorem inv_of_eq (db db' : DB) (h : XpMirrorInv db)
    (hu : db'.userSteps = db.userSteps) (hl : db'.xpLogs = db.xpLogs) :
    XpMirrorInv db' := by
  obtain ⟨h1, h2, h3⟩ := h
  refine ⟨hu ▸ h1, ?_, ?_⟩
  · intro us hm
    rw [hl]
    exact h2 us (hu ▸ hm)
  · intro u s hn
    rw [hl]
    apply h3
    unfold findUserStep at hn ⊢
    rw [hu] at hn
    exact hn

/-- Helper: the invariant survives appending a ledger entry that no
`step_complete` filter matches. -/
theorem inv_logs_nonSC (db : DB) (e : XPLog) (h : XpMirrorInv db)
    (he : ∀ u s, scPred u s e = false) :
    XpMirrorInv { db with xpLogs := db.xpLogs ++ [e] } := by
  obtain ⟨h1, h2, h3⟩ := h
  refine ⟨h1, ?_, ?_⟩
  · intro us hm
    dsimp only at hm ⊢
    rw [sumSC_append_nonSC _ _ _ _ (he us.user_id us.step_id)]
    exact h2 us hm
  · intro u s hn
    dsimp only
    rw [sumSC_append_nonSC _ _ _ _ (he u s)]
    exact h3 u s hn

/-- Helper: the invariant survives creating a fresh zero-XP progress row
for a key that had none. -/
theorem inv_fresh_row (db : DB) (uid sid : String) (st cp : Option ℕ)
    (h : XpMirrorInv db) (hn : findUserStep db uid sid = none) :
    XpMirrorInv { db with userSteps := db.userSteps ++ [⟨uid, sid, st, cp, 0⟩] } := by
  obtain ⟨h1, h2, h3⟩ := h
  refine ⟨?_, ?_, ?_⟩
  · dsimp only
    apply List.pairwise_append.mpr
    refine ⟨h1, List.pairwise_singleton _ _, ?_⟩
    intro a ha b hb
    simp only [List.mem_singleton] at hb
    subst hb
    intro hc
    exact findUserStep_none db uid sid hn a ha ⟨hc.1, hc.2⟩
  · intro us hm
    dsimp only at hm ⊢
    rcases List.mem_append.mp hm with hm1 | hm2
    · exact h2 us hm1
    · simp only [List.mem_singleton] at hm2
      subst hm2
      exact (h3 uid sid hn).symm
  · intro u s hns
    dsimp only
    apply h3
    unfold findUserStep at hns ⊢
    dsimp only at hns
    rw [List.find?_eq_none] at hns ⊢
    intro x hx
    exact hns x (List.mem_append_left _ hx)

/-- Helper: the invariant survives a first completion that creates the row
and the ledger entry together. -/
theorem inv_complete_fresh_award (db : DB) (uid sid g2 : String) (now : ℕ) (b : ℤ)
    (h : XpMirrorInv db) (hn : findUserStep db uid sid = none) :
    XpMirrorInv { db with
      userSteps := db.userSteps ++ [⟨uid, sid, some now, some now, 0 + b⟩],
      xpLogs := db.xpLogs ++ [scEntry uid g2 sid b now] } := by
  obtain ⟨h1, h2, h3⟩ := h
  refine ⟨?_, ?_, ?_⟩
  · dsimp only
    apply List.pairwise_append.mpr
    refine ⟨h1, List.pairwise_singleton _ _, ?_⟩
    intro a ha b2 hb
    simp only [List.mem_singleton] at hb
    subst hb
    intro hc
    exact findUserStep_none db uid sid hn a ha ⟨hc.1, hc.2⟩
  · intro us hm
    dsimp only at hm ⊢
    rcases List.mem_append.mp hm with hm1 | hm2
    · have hkey : scPred us.user_id us.step_id (scEntry uid g2 sid b now) = false := by
        rw [scPred_scEntry]
        simp only [decide_eq_false_iff_not]
        intro hc
        exact findUserStep_none db uid sid hn us hm1 ⟨hc.1.symm, hc.2.symm⟩
      rw [sumSC_append_nonSC _ _ _ _ hkey]
      exact h2 us hm1
    · simp only [List.mem_singleton] at hm2
      subst hm2
      dsimp only
      rw [sumSC_append, sumSC_single, scPred_scEntry]
      simp [scEntry, h3 uid sid hn]
  · intro u s hns
    dsimp only
    unfold findUserStep at hns
    dsimp only at hns
    rw [List.find?_eq_none] at hns
    have hnot : ¬(uid = u ∧ sid = s) := by
      intro hc
      have := hns ⟨uid, sid, some now, some now, 0 + b⟩
        (List.mem_append_right _ (List.mem_cons_self _ _))
      simp only [decide_eq_true_eq] at this
      exact this ⟨hc.1, hc.2⟩
    have hold : findUserStep db u s = none := by
      unfold findUserStep
      rw [List.find?_eq_none]
      intro x hx
      exact hns x (List.mem_append_left _ hx)
    have hkey : scPred u s (scEntry uid g2 sid b now) = false := by
      rw [scPred_scEntry]
      simpa using hnot
    rw [sumSC_append_nonSC _ _ _ _ hkey]
    exact h3 u s hold

/-- Helper: replacing the middle element of a pairwise-distinct list by one
with the same key keeps it pairwise distinct. -/
theorem pairwise_replace_mid (l₁ l₂ : List UserStep) (us us1 : UserStep)
    (h : (l₁ ++ us :: l₂).Pairwise usDistinct)
    (hu : us1.user_id = us.user_id) (hs : us1.step_id = us.step_id) :
    (l₁ ++ us1 :: l₂).Pairwise usDistinct := by
  rcases List.pairwise_append.mp h with ⟨ha1, ha2, ha3⟩
  rcases List.pairwise_cons.mp ha2 with ⟨hb1, hb2⟩
  apply List.pairwise_append.mpr
  refine ⟨ha1, List.pairwise_cons.mpr ⟨?_, hb2⟩, ?_⟩
  · intro b hb
    have := hb1 b hb
    simp only [usDistinct, hu, hs] at *
    exact this
  · intro a ha b hb
    rcases List.mem_cons.mp hb with rfl | hb2'
    · have := ha3 a ha us (List.mem_cons_self _ _)
      simp only [usDistinct, hu, hs] at *
      exact this
    · exact ha3 a ha b (List.mem_cons_of_mem _ hb2')

/-- Helper: the invariant survives rewriting the found progress row without
changing its key or XP (timestamp-only updates). -/
theorem inv_upd_noaward (db : DB) (uid sid : String) (us : UserStep)
    (f : UserStep → UserStep)
    (h : XpMirrorInv db) (hf : findUserStep db uid sid = some us)
    (hu : (f us).user_id = us.user_id) (hs : (f us).step_id = us.step_id)
    (hx : (f us).xp_awarded = us.xp_awarded) :
    XpMirrorInv { db with
      userSteps := updFirst (usKey uid sid) f db.userSteps } := by
  obtain ⟨h1, h2, h3⟩ := h
  obtain ⟨l₁, l₂, he, hupd, -⟩ :=
    updFirst_split (usKey uid sid) f db.userSteps us hf
  refine ⟨?_, ?_, ?_⟩
  · dsimp only
    rw [hupd]
    exact pairwise_replace_mid l₁ l₂ us (f us) (he ▸ h1) hu hs
  · intro us' hm
    dsimp only at hm ⊢
    rw [hupd] at hm
    rcases List.mem_append.mp hm with hm1 | hm2
    · exact h2 us' (by rw [he]; exact List.mem_append_left _ hm1)
    · rcases List.mem_cons.mp hm2 with rfl | hm3
      · rw [hu, hs, hx]
        exact h2 us (by rw [he]; exact List.mem_append_right _ (List.mem_cons_self _ _))
      · exact h2 us' (by rw [he]; exact List.mem_append_right _ (List.mem_cons_of_mem _ hm3))
  · intro u s hns
    dsimp only at hns ⊢
    apply h3
    unfold findUserStep at hns ⊢
    rw [hupd] at hns
    rw [he]
    rw [List.find?_eq_none] at hns ⊢
    intro x hx2
    rcases List.mem_append.mp hx2 with h1' | h2'
    · exact hns x (List.mem_append_left _ h1')
    · rcases List.mem_cons.mp h2' with rfl | h3'
      · have hthis := hns _ (List.mem_append_right _ (List.mem_cons_self _ _))
        simp only [decide_eq_true_eq] at hthis ⊢
        intro hc
        exact hthis ⟨hu.trans hc.1, hs.trans hc.2⟩
      · exact hns x (List.mem_append_right _ (List.mem_cons_of_mem _ h3'))

/-- Helper: the invariant survives a first completion on an existing row:
the row's XP grows by the awarded amount and the matching ledger entry is
appended in the same transaction. -/
theorem inv_upd_award (db : DB) (uid sid g2 : String) (now : ℕ) (us : UserStep)
    (f : UserStep → UserStep) (b : ℤ)
    (h : XpMirrorInv db) (hf : findUserStep db uid sid = some us)
    (hu : (f us).user_id = us.user_id) (hs : (f us).step_id = us.step_id)
    (hx : (f us).xp_awarded = us.xp_awarded + b) :
    XpMirrorInv { db with
      userSteps := updFirst (usKey uid sid) f db.userSteps,
      xpLogs := db.xpLogs ++ [scEntry uid g2 sid b now] } := by
  obtain ⟨h1, h2, h3⟩ := h
  obtain ⟨-, hku, hks⟩ := findUserStep_some db uid sid us hf
  obtain ⟨l₁, l₂, he, hupd, -⟩ :=
    updFirst_split (usKey uid sid) f db.userSteps us hf
  have hpair : (l₁ ++ us :: l₂).Pairwise usDistinct := he ▸ h1
  rcases List.pairwise_append.mp hpair with ⟨-, hp2, hp3⟩
  rcases List.pairwise_cons.mp hp2 with ⟨hp4, -⟩
  refine ⟨?_, ?_, ?_⟩
  · dsimp only
    rw [hupd]
    exact pairwise_replace_mid l₁ l₂ us (f us) hpair hu hs
  · intro us' hm
    dsimp only at hm ⊢
    rw [hupd] at hm
    rcases List.mem_append.mp hm with hm1 | hm2
    · have hd := hp3 us' hm1 us (List.mem_cons_self _ _)
      have hkey : scPred us'.user_id us'.step_id (scEntry uid g2 sid b now) = false := by
        rw [scPred_scEntry]
        simp only [decide_eq_false_iff_not]
        intro hc
        exact hd ⟨hc.1.symm.trans hku.symm, hc.2.symm.trans hks.symm⟩
      rw [sumSC_append_nonSC _ _ _ _ hkey]
      exact h2 us' (by rw [he]; exact List.mem_append_left _ hm1)
    · rcases List.mem_cons.mp hm2 with rfl | hm3
      · have h2us := h2 us (by rw [he]; exact List.mem_append_right _ (List.mem_cons_self _ _))
        rw [hu, hs, hx, h2us, hku, hks]
        rw [sumSC_append, sumSC_single, scPred_scEntry]
        simp [scEntry]
      · have hd := hp4 us' hm3
        have hkey : scPred us'.user_id us'.step_id (scEntry uid g2 sid b now) = false := by
          rw [scPred_scEntry]
          simp only [decide_eq_false_iff_not]
          intro hc
          exact hd ⟨hku.trans hc.1, hks.trans hc.2⟩
        rw [sumSC_append_nonSC _ _ _ _ hkey]
        exact h2 us' (by rw [he]; exact List.mem_append_right _ (List.mem_cons_of_mem _ hm3))
  · intro u s hns
    dsimp only at hns ⊢
    unfold findUserStep at hns
    dsimp only at hns
    rw [hupd, List.find?_eq_none] at hns
    have hnotk : ¬(uid = u ∧ sid = s) := by
      intro hc
      have hthis := hns (f us) (List.mem_append_right _ (List.mem_cons_self _ _))
      simp only [decide_eq_true_eq] at hthis
      exact hthis ⟨hu.trans (hku.trans hc.1), hs.trans (hks.trans hc.2)⟩
    have hold : findUserStep db u s = none := by
      unfold findUserStep
      rw [he, List.find?_eq_none]
      intro x hx2
      rcases List.mem_append.mp hx2 with h1' | h2'
      · exact hns x (List.mem_append_left _ h1')
      · rcases List.mem_cons.mp h2' with rfl | h3'
        · simp only [decide_eq_true_eq]
          intro hc
          exact hnotk ⟨hku.symm.trans hc.1, hks.symm.trans hc.2⟩
        · exact hns x (List.mem_append_right _ (List.mem_cons_of_mem _ h3'))
    have hkey : scPred u s (scEntry uid g2 sid b now) = false := by
      rw [scPred_scEntry]
      simpa using hnotk
    rw [sumSC_append_nonSC _ _ _ _ hkey]
    exact h3 u s hold

/-- Helper: every single request preserves the `xp_awarded` cache
invariant. -/
theorem inv_applyOp (db : DB) (uid : String) (now : ℕ) (op : Op)
    (h : XpMirrorInv db) : XpMirrorInv (applyOp db uid now op) := by
  cases op with
  | startOp gid sid =>
    unfold applyOp start_step
    dsimp only
    cases hg : findGoal db gid uid with
    | none => exact h
    | some goal =>
      dsimp only
      cases hs : findStep db sid goal.id with
      | none => exact h
      | some step =>
        dsimp only
        cases hq : seqGuard db uid goal.id step.position with
        | some e => exact h
        | none =>
          dsimp only
          unfold startStepBody
          cases hu : findUserStep db uid step.id with
          | none =>
            dsimp only
            exact inv_fresh_row db uid step.id (some now) none h hu
          | some us =>
            dsimp only
            by_cases hst : us.started_at = none
            · rw [if_pos hst]
              exact inv_upd_noaward db uid step.id us _ h hu rfl rfl rfl
            · rw [if_neg hst]
              exact h
  | completeOp gid sid =>
    unfold applyOp complete_step
    dsimp only
    cases hg : findGoal db gid uid with
    | none => exact h
    | some goal =>
      dsimp only
      cases hs : findStep db sid goal.id with
      | none => exact h
      | some step =>
        dsimp only
        cases hq : seqGuard db uid goal.id step.position with
        | some e => exact h
        | none =>
          dsimp only
          unfold completeStepBody
          cases hu : findUserStep db uid step.id with
          | none =>
            dsimp only
            cases hc : findCompletionXP db uid step.id with
            | some e0 =>
              dsimp only
              exact inv_fresh_row db uid step.id (some now) (some now) h hu
            | none =>
              dsimp only
              exact inv_complete_fresh_award db uid step.id goal.id now
                (baseXP step.difficulty) h hu
          | some us =>
            dsimp only
            cases hc : findCompletionXP db uid step.id with
            | some e0 =>
              dsimp only
              by_cases hcomp : us.completed_at = none
              · rw [if_pos hcomp]
                exact inv_upd_noaward db uid step.id us _ h hu rfl rfl rfl
              · rw [if_neg hcomp]
                exact inv_upd_noaward db uid step.id us (fun _ => us) h hu rfl rfl rfl
            | none =>
              dsimp only
              by_cases hcomp : us.completed_at = none
              · rw [if_pos hcomp]
                exact inv_upd_award db uid step.id goal.id now us _
                  (baseXP step.difficulty) h hu rfl rfl rfl
              · rw [if_neg hcomp]
                exact inv_upd_award db uid step.id goal.id now us _
                  (baseXP step.difficulty) h hu rfl rfl rfl
  | reflectOp gid sid text =>
    unfold applyOp create_or_update_reflection
    dsimp only
    cases hg : findGoal db gid uid with
    | none => exact h
    | some goal =>
      dsimp only
      cases hs : findStep db sid goal.id with
      | none => exact h
      | some step =>
        dsimp only
        cases hr : findReflection db uid sid with
        | some r₀ =>
          dsimp only
          exact inv_of_eq db _ h rfl rfl
        | none =>
          dsimp only
          exact inv_of_eq _ _
            (inv_logs_nonSC db (reflectionEntry uid gid sid now) h
              (fun u s => scPred_reflectionEntry uid gid sid now u s))
            rfl rfl
  | finishOp gid summary =>
    unfold applyOp finish_goal
    dsimp only
    cases hg : findGoal db gid uid with
    | none => exact h
    | some goal =>
      dsimp only
      by_cases hcond : 0 < (goalSteps db goal.id).length ∧
          completedJoinCount db uid goal.id < (goalSteps db goal.id).length
      · rw [if_pos hcond]
        exact h
      · rw [if_neg hcond]
        dsimp only
        by_cases hb : 0 < bonusFromTotal (totalGoalXP db uid goal.id)
        · rw [if_pos hb]
          exact inv_of_eq _ _
            (inv_logs_nonSC db
              (goalCompleteEntry uid goal.id (bonusFromTotal (totalGoalXP db uid goal.id)) now)
              h
              (fun u s => scPred_goalCompleteEntry uid goal.id _ now u s))
            rfl rfl
        · rw [if_neg hb]
          exact inv_of_eq db _ h rfl rfl

/-- C9 (amended): across every sequence of requests, each progress row's
`xp_awarded` equals the sum of that user's `step_complete` ledger entries
tagged with that step — reflection XP (also tagged with the step id) and
goal bonuses are ledger-only and are never mirrored into `xp_awarded`. -/
theorem xp_mirror_invariant (db : DB) (ops : List (String × ℕ × Op))
    (h : XpMirrorInv db) : XpMirrorInv (runOps db ops) := by
  induction ops generalizing db with
  | nil => exact h
  | cons p rest ih =>
    obtain ⟨uid, now, op⟩ := p
    exact ih (applyOp db uid now op) (inv_applyOp db uid now op h)

/-- Witness for C9: the invariant holds after completing `s1` from the
pristine sample state. -/
theorem xp_mirror_invariant_witness :
    XpMirrorInv (runOps dbSample [("u1", 0, Op.completeOp "g1" "s1")]) :=
  xp_mirror_invariant dbSample [("u1", 0, Op.completeOp "g1" "s1")]
    ⟨List.Pairwise.nil, by simp [dbSample], fun u s _ => rfl⟩

/-- C9 (counterexample): the claim as stated — `xp_awarded` equals the sum
of ALL step-tagged entries — fails: after `u1` starts `s1` and then
reflects on it, the progress row still has `xp_awarded = 0` while the
ledger holds 5 step-tagged XP (the reflection award is not mirrored). -/
theorem xp_awarded_diverges_from_step_tagged_sum :
    findUserStep dbStartedReflected "u1" "s1" =
      some ⟨"u1", "s1", some 0, none, 0⟩ ∧
    stepTaggedSum dbStartedReflected.xpLogs "u1" "s1" = 5 ∧ (0 : ℤ) ≠ 5 :=
  ⟨rfl, by decide, by decide⟩
